import Mathlib

open scoped List

/-!
Verification of the skill-selection and pipeline-coordination core
(`core/skill_loader.py`, `core/orchestrator.py`).

Python strings are modelled as Lean `String`s (sequences of Unicode code
points, matching CPython's code-point view: `len`, slicing and `in` all
operate on code points).  Python floats are modelled as rationals: every
score in the source is a sum of the literals 0.5, 0.3, 0.15, 0.2 times small
integer counts, so the rational model reproduces the comparisons exactly.
-/

/-- The ASCII whitespace class used by `str.strip()`, `str.split()` and the
regex class `\s` (the source files only ever contain ASCII). -/
def isPySpace (c : Char) : Bool :=
  c == ' ' || c == '\t' || c == '\n' || c == '\r' || c == '\x0c' || c == '\x0b'

/-- Python `str.lower()` as a character map (ASCII case folding). -/
def pyLower (s : String) : String :=
  String.mk (s.data.map Char.toLower)

/-- Substring test on character lists: Python's `needle in hay`. -/
def listContains (hay needle : List Char) : Bool :=
  match hay with
  | [] => needle.isEmpty
  | _ :: rest => needle.isPrefixOf hay || listContains rest needle

/-- Python `needle in hay` for strings. -/
def strContains (hay needle : String) : Bool :=
  listContains hay.data needle.data

/-- Strip characters satisfying `p` from both ends of a character list. -/
def stripChars (p : Char → Bool) (l : List Char) : List Char :=
  ((l.dropWhile p).reverse.dropWhile p).reverse

/-- Python `str.strip()` (no arguments: strip whitespace). -/
def pyStrip (s : String) : String :=
  String.mk (stripChars isPySpace s.data)

/-- Python `str.strip('"\'')`: strip double and single quotes from both ends. -/
def stripQuotes (s : String) : String :=
  String.mk (stripChars (fun c => c == '"' || c == '\'') s.data)

/-- Python `str.replace('-', ' ')`: a one-character pattern, so a character map. -/
def dashToSpace (s : String) : String :=
  String.mk (s.data.map (fun c => if c == '-' then ' ' else c))

/-- Python `str.split()` (no arguments): maximal runs of non-whitespace,
empty fields discarded.  Words are kept as character lists. -/
def pyWords (s : String) : List (List Char) :=
  (s.data.splitOnP isPySpace).filter (· ≠ [])

/-- A skill: directory name, parsed description, keyword list, raw document
text (`Skill.__init__` / `_parse_skill_file` in `core/skill_loader.py`). -/
structure Skill where
  name : String
  description : String
  keywords : List String
  content : String
deriving DecidableEq

/-- The fixed keyword vocabulary `tech_keywords` of `Skill._extract_keywords`. -/
def tech_keywords : List String :=
  ["react", "vue", "angular", "typescript", "javascript", "python",
   "node", "express", "django", "flask", "fastapi", "next.js",
   "authentication", "auth", "jwt", "oauth", "security",
   "database", "sql", "mongodb", "postgres", "mysql",
   "api", "rest", "graphql", "websocket",
   "ui", "ux", "design", "css", "tailwind", "styling",
   "test", "testing", "jest", "pytest", "unit test",
   "debug", "error", "bug", "fix",
   "deploy", "devops", "docker", "kubernetes",
   "performance", "optimize", "cache",
   "mobile", "ios", "android", "react-native",
   "payment", "stripe", "shopify",
   "3d", "threejs", "webgl", "canvas",
   "pdf", "excel", "word", "document",
   "planning", "architecture", "design pattern"]

/-- `Skill._extract_keywords`: every vocabulary term occurring in the
lowercased text, in vocabulary order, first 10. -/
def extract_keywords (text : String) : List String :=
  (tech_keywords.filter (fun k => strContains (pyLower text) k)).take 10

/-- The static role→skill-name affinity table of `Skill._get_agent_affinity`
(`affinities.get(agent_id, [])`). -/
def affinities (agent_id : String) : List String :=
  match agent_id with
  | "00" => ["code-review", "sequential-thinking", "problem-solving", "debugging"]
  | "01" => ["planning", "sequential-thinking", "problem-solving"]
  | "02" => ["backend-development", "frontend-development", "web-frameworks",
             "databases", "better-auth", "payment-integration", "debugging"]
  | "03" => ["ui-ux-pro-max", "frontend-design", "ui-styling", "threejs", "ai-artist"]
  | "04" => ["code-review", "sequential-thinking", "problem-solving"]
  | "05" => ["common"]
  | "06" => ["devops", "chrome-devtools"]
  | "07" => ["debugging", "problem-solving", "sequential-thinking"]
  | "08" => ["devops", "planning"]
  | "09" => ["debugging", "code-review"]
  | _ => []

/-- `Skill._get_agent_affinity`: 1.0 if the skill's name is in the role's
affinity list, else 0.0. -/
def get_agent_affinity (s : Skill) (agent_id : String) : ℚ :=
  if s.name ∈ affinities agent_id then 1 else 0

/-- Signal 1 of `relevance_score`: direct name match
(`if self.name.replace('-', ' ') in query_lower: score += 0.5`). -/
def nameScore (s : Skill) (queryLower : String) : ℚ :=
  if strContains queryLower (dashToSpace s.name) then 1/2 else 0

/-- Signal 2 of `relevance_score`: description word overlap
(`score += 0.3 * (len(common) / max(len(query_words), 1))`, guarded by
`if self.description:` and `if common:`). -/
def descScore (s : Skill) (queryLower : String) : ℚ :=
  if s.description ≠ "" then
    let descWords := (pyWords (pyLower s.description)).toFinset
    let queryWords := (pyWords queryLower).toFinset
    let common := descWords ∩ queryWords
    if common.card ≠ 0 then
      (3/10) * ((common.card : ℚ) / (max queryWords.card 1 : ℕ))
    else 0
  else 0

/-- Signal 3 of `relevance_score`: 0.15 per keyword occurring in the
lowercased query. -/
def kwScore (s : Skill) (queryLower : String) : ℚ :=
  (15/100) * ((s.keywords.filter (fun k => strContains queryLower k)).length : ℚ)

/-- Signal 4 of `relevance_score`: affinity boost, guarded by Python
truthiness `if agent_id:` (both `None` and `""` are falsy). -/
def affScore (s : Skill) (agentId : Option String) : ℚ :=
  match agentId with
  | some a => if a ≠ "" then get_agent_affinity s a * (2/10) else 0
  | none => 0

/-- `Skill.relevance_score(query, agent_id)`: the four additive signals,
clamped by `min(score, 1.0)`. -/
def relevance_score (s : Skill) (query : String) (agentId : Option String) : ℚ :=
  let ql := pyLower query
  min (nameScore s ql + descScore s ql + kwScore s ql + affScore s agentId) 1

theorem nameScore_nonneg (s : Skill) (ql : String) : 0 ≤ nameScore s ql := by
  unfold nameScore; split <;> norm_num

theorem descScore_nonneg (s : Skill) (ql : String) : 0 ≤ descScore s ql := by
  unfold descScore
  split
  · dsimp only
    split
    · positivity
    · norm_num
  · norm_num

theorem kwScore_nonneg (s : Skill) (ql : String) : 0 ≤ kwScore s ql := by
  unfold kwScore; positivity

theorem affScore_nonneg (s : Skill) (a : Option String) : 0 ≤ affScore s a := by
  unfold affScore get_agent_affinity
  rcases a with _ | a
  · norm_num
  · simp only
    split
    · split <;> norm_num
    · norm_num

/-- **C2.** For every skill, query and optional role id, `relevance_score`
returns a value in the closed interval [0, 1]. -/
theorem relevance_score_mem_unit (s : Skill) (query : String) (agentId : Option String) :
    0 ≤ relevance_score s query agentId ∧ relevance_score s query agentId ≤ 1 := by
  unfold relevance_score
  constructor
  · apply le_min _ (by norm_num)
    have h1 := nameScore_nonneg s (pyLower query)
    have h2 := descScore_nonneg s (pyLower query)
    have h3 := kwScore_nonneg s (pyLower query)
    have h4 := affScore_nonneg s agentId
    linarith
  · exact min_le_right _ _

/-- **C3.** If the skill's name with separators replaced by spaces is a
substring of the lowercased query, the score is at least 0.5, regardless of
description, keywords or role affinity. -/
theorem relevance_score_ge_half_of_name_match (s : Skill) (query : String)
    (agentId : Option String)
    (h : strContains (pyLower query) (dashToSpace s.name) = true) :
    1/2 ≤ relevance_score s query agentId := by
  unfold relevance_score
  apply le_min _ (by norm_num)
  have h1 : nameScore s (pyLower query) = 1/2 := by unfold nameScore; rw [h]; norm_num
  have h2 := descScore_nonneg s (pyLower query)
  have h3 := kwScore_nonneg s (pyLower query)
  have h4 := affScore_nonneg s agentId
  linarith

/-- Witness for C3: the skill name `debugging` occurs in the query
`debugging help`, and the theorem yields a score of at least 0.5 there. -/
theorem relevance_score_ge_half_of_name_match_witness :
    strContains (pyLower "debugging help") (dashToSpace "debugging") = true ∧
      1/2 ≤ relevance_score ⟨"debugging", "", [], ""⟩ "debugging help" none :=
  ⟨by decide,
   relevance_score_ge_half_of_name_match ⟨"debugging", "", [], ""⟩ "debugging help" none
     (by decide)⟩

/-- **C10.** Supplying a role id never decreases a skill's score: the
affinity contribution is 0 or 0.2 before the final clamp, never negative. -/
theorem relevance_score_mono_agent (s : Skill) (query : String) (aid : String) :
    relevance_score s query none ≤ relevance_score s query (some aid) := by
  unfold relevance_score
  apply min_le_min _ le_rfl
  have h0 : affScore s none = 0 := rfl
  have h4 := affScore_nonneg s (some aid)
  linarith

/-- The comparison passed to the stable sort in `SkillLoader.select_skills`:
`sort(key=lambda x: x[1], reverse=True)` orders by descending score. -/
def scoreLE (a b : Skill × ℚ) : Bool := decide (b.2 ≤ a.2)

/-- The scored-and-filtered list of `select_skills`, in the catalog's
iteration order (Python dicts iterate in insertion order). -/
def scoredList (skills : List Skill) (query : String) (agentId : Option String)
    (min_score : ℚ) : List (Skill × ℚ) :=
  (skills.map (fun s => (s, relevance_score s query agentId))).filter
    (fun p => decide (min_score ≤ p.2))

/-- `SkillLoader.select_skills(query, agent_id, max_skills, min_score)`:
score every skill, keep those with score ≥ `min_score` (default 0.1), sort
stably by descending score, return the first `max_skills` (default 3). -/
def select_skills (skills : List Skill) (query : String) (agentId : Option String)
    (max_skills : Nat) (min_score : ℚ) : List (Skill × ℚ) :=
  ((scoredList skills query agentId min_score).mergeSort scoreLE).take max_skills

theorem scoreLE_trans (a b c : Skill × ℚ) :
    scoreLE a b → scoreLE b c → scoreLE a c := by
  unfold scoreLE
  intro h1 h2
  simp only [decide_eq_true_eq] at *
  exact le_trans h2 h1

theorem scoreLE_total (a b : Skill × ℚ) : scoreLE a b || scoreLE b a := by
  unfold scoreLE
  rcases le_total a.2 b.2 with h | h <;> simp [h]

/-- Stability core: filtering the sorted list at any single score value
gives back exactly the filtered catalog-order list at that value. -/
theorem mergeSort_filter_eq_score (S : List (Skill × ℚ)) (c : ℚ) :
    (S.mergeSort scoreLE).filter (fun p => decide (p.2 = c)) =
      S.filter (fun p => decide (p.2 = c)) := by
  have hsub : S.filter (fun p => decide (p.2 = c)) <+ S.mergeSort scoreLE := by
    apply List.sublist_mergeSort scoreLE_trans scoreLE_total _ (List.filter_sublist S)
    apply List.pairwise_of_forall_mem_list
    intro a ha b hb
    have ha' := (List.mem_filter.mp ha).2
    have hb' := (List.mem_filter.mp hb).2
    simp only [decide_eq_true_eq] at ha' hb'
    unfold scoreLE
    simp [ha', hb']
  have hsub2 : S.filter (fun p => decide (p.2 = c)) <+
      (S.mergeSort scoreLE).filter (fun p => decide (p.2 = c)) := by
    have := hsub.filter (fun p => decide (p.2 = c))
    rwa [List.filter_filter, (by funext p; simp : (fun p : Skill × ℚ =>
      decide (p.2 = c) && decide (p.2 = c)) = fun p => decide (p.2 = c))] at this
  have hlen : ((S.mergeSort scoreLE).filter (fun p => decide (p.2 = c))).length =
      (S.filter (fun p => decide (p.2 = c))).length :=
    ((List.mergeSort_perm S scoreLE).filter _).length_eq
  exact (hsub2.eq_of_length hlen.symm).symm

/-- **C1.** `select_skills` returns at most `max_skills` entries, every
returned score is ≥ `min_score`, the list is sorted by descending score, and
entries of equal score appear in the catalog's iteration order (stable
tie-break): the selection filtered at any score value is a sublist of the
catalog-order scored list filtered at that value. -/
theorem select_skills_spec (skills : List Skill) (query : String)
    (agentId : Option String) (max_skills : Nat) (min_score : ℚ) :
    (select_skills skills query agentId max_skills min_score).length ≤ max_skills ∧
    (∀ p ∈ select_skills skills query agentId max_skills min_score, min_score ≤ p.2) ∧
    (select_skills skills query agentId max_skills min_score).Pairwise
      (fun a b => b.2 ≤ a.2) ∧
    (∀ c : ℚ, (select_skills skills query agentId max_skills min_score).filter
        (fun p => decide (p.2 = c)) <+
      (scoredList skills query agentId min_score).filter (fun p => decide (p.2 = c))) := by
  refine ⟨?_, ?_, ?_, ?_⟩
  · exact List.length_take_le _ _
  · intro p hp
    have hp1 : p ∈ (scoredList skills query agentId min_score).mergeSort scoreLE :=
      List.mem_of_mem_take hp
    have hp2 : p ∈ scoredList skills query agentId min_score :=
      List.mem_mergeSort.mp hp1
    have := (List.mem_filter.mp hp2).2
    simpa using this
  · have hs : ((scoredList skills query agentId min_score).mergeSort scoreLE).Pairwise
        (fun a b => scoreLE a b = true) :=
      List.sorted_mergeSort scoreLE_trans scoreLE_total _
    have hs2 := hs.sublist (List.take_sublist max_skills _)
    refine hs2.imp ?_
    intro a b h
    unfold scoreLE at h
    simpa using h
  · intro c
    have h1 : (select_skills skills query agentId max_skills min_score).filter
        (fun p => decide (p.2 = c)) <+
        ((scoredList skills query agentId min_score).mergeSort scoreLE).filter
          (fun p => decide (p.2 = c)) :=
      (List.take_sublist _ _).filter _
    rwa [mergeSort_filter_eq_score] at h1

/-- Propositional substring: `t` occurs contiguously inside `l`. -/
def ContainsP (l t : List Char) : Prop := ∃ p s, l = p ++ t ++ s

theorem containsP_append_right {u t : List Char} (h : ContainsP u t) (w : List Char) :
    ContainsP (u ++ w) t := by
  obtain ⟨p, s, rfl⟩ := h
  exact ⟨p, s ++ w, by simp⟩

theorem containsP_append_left {w t : List Char} (h : ContainsP w t) (u : List Char) :
    ContainsP (u ++ w) t := by
  obtain ⟨p, s, rfl⟩ := h
  exact ⟨u ++ p, s, by simp⟩

theorem listContains_iff (hay t : List Char) :
    listContains hay t = true ↔ ContainsP hay t := by
  induction hay with
  | nil =>
    simp only [listContains, List.isEmpty_iff, ContainsP]
    constructor
    · rintro rfl; exact ⟨[], [], rfl⟩
    · rintro ⟨p, s, h⟩
      have h2 := h.symm
      simp only [List.append_eq_nil] at h2
      exact h2.1.2
  | cons c rest ih =>
    simp only [listContains, Bool.or_eq_true, List.isPrefixOf_iff_prefix, ih]
    constructor
    · rintro (⟨s, hs⟩ | ⟨p, s, rfl⟩)
      · exact ⟨[], s, by simp [hs.symm]⟩
      · exact ⟨c :: p, s, rfl⟩
    · rintro ⟨p, s, h⟩
      cases p with
      | nil => exact Or.inl ⟨s, by simpa using h.symm⟩
      | cons a p' =>
        simp only [List.cons_append] at h
        exact Or.inr ⟨p', s, (List.cons.injEq .. ▸ h).2⟩

/-- Occurrences of `t` in `u ++ w` lie inside `u`, inside `w`, or span the
boundary with a nonempty part on each side. -/
theorem containsP_append_iff (t u w : List Char) :
    ContainsP (u ++ w) t ↔ ContainsP u t ∨ ContainsP w t ∨
      ∃ t₁ t₂ p s, t₁ ++ t₂ = t ∧ t₁ ≠ [] ∧ t₂ ≠ [] ∧ u = p ++ t₁ ∧ w = t₂ ++ s := by
  constructor
  · rintro ⟨p, s, h⟩
    rw [List.append_assoc] at h
    rcases List.append_eq_append_iff.mp h with ⟨a, ha1, ha2⟩ | ⟨c', hc1, hc2⟩
    · -- w = a ++ (t ++ s) : the occurrence is inside w
      exact Or.inr (Or.inl ⟨a, s, by rw [ha2, List.append_assoc]⟩)
    · -- u = p ++ c', t ++ s = c' ++ w
      rcases List.append_eq_append_iff.mp hc2 with ⟨d, hd1, hd2⟩ | ⟨e, he1, he2⟩
      · -- c' = t ++ d : the occurrence is inside u
        exact Or.inl ⟨p, d, by rw [hc1, hd1, List.append_assoc]⟩
      · -- t = c' ++ e, w = e ++ s : possibly spanning
        rcases eq_or_ne c' [] with rfl | hc
        · exact Or.inr (Or.inl ⟨[], s, by
            simp only [List.nil_append] at he1
            rw [he2, he1]; simp⟩)
        · rcases eq_or_ne e [] with rfl | he
          · exact Or.inl ⟨p, [], by
              simp only [List.append_nil] at he1
              rw [hc1, he1]; simp⟩
          · exact Or.inr (Or.inr ⟨c', e, p, s, he1.symm, hc, he, hc1, he2⟩)
  · rintro (h | h | ⟨t₁, t₂, p, s, rfl, -, -, rfl, rfl⟩)
    · exact containsP_append_right h w
    · exact containsP_append_left h u
    · exact ⟨p, s, by simp⟩

/-- Side conditions on a search term that rule out boundary-spanning
occurrences around `" "` followed by `"--"`; they hold for every entry of
the fixed vocabulary. -/
def OkTerm (t : List Char) : Prop :=
  t ≠ [] ∧ t.head? ≠ some ' ' ∧ t.getLast? ≠ some ' ' ∧ t.getLast? ≠ some '-' ∧
    listContains t [' ', '-'] = false ∧ listContains t ['-', '-'] = false

instance (t : List Char) : Decidable (OkTerm t) := by
  unfold OkTerm; infer_instance

theorem tech_keywords_ok : ∀ k ∈ tech_keywords, OkTerm k.data := by decide

/-- Joining two texts with a space does not change which well-behaved terms
occur, provided the right text starts with `"--"` (or the left is empty):
exactly the situation of `_parse_skill_file`, where a nonempty description
implies the document begins with the `---` delimiter. -/
theorem containsP_join_eq (u v t : List Char)
    (hv : u = [] ∨ ∃ v', v = '-' :: '-' :: v') (hok : OkTerm t) :
    (ContainsP (u ++ ' ' :: v) t ↔ ContainsP (u ++ v) t) := by
  obtain ⟨h1, h2, h3, h4, hb5, hb6⟩ := hok
  have h5 : ¬ ContainsP t [' ', '-'] := fun hc =>
    absurd ((listContains_iff _ _).mpr hc) (by simp [hb5])
  have h6 : ¬ ContainsP t ['-', '-'] := fun hc =>
    absurd ((listContains_iff _ _).mpr hc) (by simp [hb6])
  constructor
  · intro h
    rcases (containsP_append_iff t u (' ' :: v)).mp h with h | h | h
    · exact containsP_append_right h v
    · -- inside ' ' :: v
      rcases (containsP_append_iff t [' '] v).mp h with h | h | h
      · -- inside [' ']: t would be empty or start with ' '
        obtain ⟨p, s, hp⟩ := h
        exfalso
        cases p with
        | nil =>
          cases t with
          | nil => exact h1 rfl
          | cons a t' =>
            simp only [List.nil_append, List.cons_append, List.cons.injEq] at hp
            exact h2 (by simp [hp.1.symm])
        | cons a p' =>
          simp only [List.cons_append, List.cons.injEq] at hp
          have := hp.2.symm
          simp only [List.append_eq_nil, List.append_assoc] at this
          exact h1 this.2.1
      · exact containsP_append_left h u
      · -- spans [' '] and v: t starts with ' '
        obtain ⟨t₁, t₂, p, s, ht, ht₁, ht₂, hpu, hws⟩ := h
        exfalso
        cases p with
        | nil =>
          simp only [List.nil_append] at hpu
          apply h2
          rw [← ht, ← hpu]
          simp
        | cons a p' =>
          simp only [List.cons_append, List.cons.injEq] at hpu
          exact ht₁ (List.append_eq_nil.mp hpu.2.symm).2
    · -- spans u and ' ' :: v
      obtain ⟨t₁, t₂, p, s, ht, ht₁, ht₂, hpu, hws⟩ := h
      exfalso
      cases t₂ with
      | nil => exact ht₂ rfl
      | cons c t₂' =>
        have hc : ' ' = c := by
          simpa using congrArg List.head? hws
        subst hc
        cases t₂' with
        | nil =>
          apply h3
          rw [← ht]
          exact List.getLast?_concat _
        | cons d t₂'' =>
          have hu : u ≠ [] := by
            rw [hpu]
            intro hcon
            exact ht₁ (List.append_eq_nil.mp hcon).2
          rcases hv with rfl | ⟨v', rfl⟩
          · exact hu rfl
          · have hd : '-' = d := by
              have := congrArg List.tail hws
              simp only [List.tail_cons] at this
              simpa using congrArg List.head? this
            subst hd
            apply h5
            exact ⟨t₁, t₂'', by rw [← ht]; simp⟩
  · intro h
    rcases (containsP_append_iff t u v).mp h with h | h | h
    · exact containsP_append_right h (' ' :: v)
    · exact containsP_append_left (containsP_append_left h [' ']) u
    · -- spans u and v directly
      obtain ⟨t₁, t₂, p, s, ht, ht₁, ht₂, hpu, hws⟩ := h
      exfalso
      have hu : u ≠ [] := by
        rw [hpu]
        intro hcon
        exact ht₁ (List.append_eq_nil.mp hcon).2
      rcases hv with rfl | ⟨v', rfl⟩
      · exact hu rfl
      · cases t₂ with
        | nil => exact ht₂ rfl
        | cons c t₂' =>
          have hc : '-' = c := by
            simpa using congrArg List.head? hws
          subst hc
          cases t₂' with
          | nil =>
            apply h4
            rw [← ht]
            exact List.getLast?_concat _
          | cons d t₂'' =>
            have hd : '-' = d := by
              have := congrArg List.tail hws
              simp only [List.tail_cons] at this
              simpa using congrArg List.head? this
            subst hd
            apply h6
            exact ⟨t₁, t₂'', by rw [← ht]; simp⟩

/-- Python `content[:n]`: slice of the first `n` code points. -/
def pyTake (s : String) (n : Nat) : String :=
  String.mk (s.data.take n)

/-- All ways the fragment `\s*\n` can match at the front of `l` with a greedy
(backtracking) `\s*`: the remainders after the consumed prefix, longest
consumed prefix first — the order Python's engine tries them. -/
def wsNlRemainders : List Char → List (List Char)
  | [] => []
  | c :: rest =>
    if c = '\n' then wsNlRemainders rest ++ [rest]
    else if isPySpace c then wsNlRemainders rest
    else []

/-- Does `\s*\n` match at the front of `l`? -/
def hasWsNl (l : List Char) : Bool :=
  !(wsNlRemainders l).isEmpty

/-- The lazy group `(.*?)` (DOTALL) followed by `\n---\s*\n`: the shortest
prefix of `l` that is followed by a newline, `---` and a `\s*\n` match. -/
def lazyGroup : List Char → Option (List Char)
  | [] => none
  | c :: rest =>
    if c = '\n' ∧ rest.take 3 = ['-', '-', '-'] ∧ hasWsNl (rest.drop 3) then
      some []
    else (lazyGroup rest).map (c :: ·)

/-- Try the lazy group on each backtracking remainder in engine order. -/
def firstLazy : List (List Char) → Option (List Char)
  | [] => none
  | r :: rs =>
    match lazyGroup r with
    | some g => some g
    | none => firstLazy rs

/-- `re.search(r'^---\s*\n(.*?)\n---\s*\n', content, re.DOTALL)`, group 1.
`^` (without MULTILINE) anchors the match at the start of the string. -/
def frontmatterGroup (content : String) : Option (List Char) :=
  match content.data with
  | '-' :: '-' :: '-' :: rest => firstLazy (wsNlRemainders rest)
  | _ => none

/-- The `\s*(.+)` tail of the `description:` regex: greedy backtracking
`\s*`, then `(.+)` (no DOTALL) spanning to the end of the line, greedy. -/
def descRest : List Char → Option (List Char)
  | [] => none
  | c :: rest =>
    if isPySpace c then
      match descRest rest with
      | some g => some g
      | none => if c ≠ '\n' then some (c :: rest.takeWhile (· ≠ '\n')) else none
    else some ((c :: rest).takeWhile (· ≠ '\n'))

/-- `re.search` for a literal pattern followed by a tail matcher: try every
start position left to right. -/
def reSearch (pat : List Char) (tailMatch : List Char → Option (List Char)) :
    List Char → Option (List Char)
  | [] => none
  | l@(_ :: rest) =>
    if pat.isPrefixOf l then
      match tailMatch (l.drop pat.length) with
      | some g => some g
      | none => reSearch pat tailMatch rest
    else reSearch pat tailMatch rest

/-- The `\s*\[(.+)\]` tail of the `keywords:` regex: `[` is not whitespace so
the greedy `\s*` commits to the whole whitespace run; the greedy `(.+)` (no
DOTALL) ends at the last `]` on the line, and needs at least one character. -/
def kwRest (l : List Char) : Option (List Char) :=
  match l.dropWhile isPySpace with
  | '[' :: rest =>
    match (rest.takeWhile (· ≠ '\n')).reverse.dropWhile (· ≠ ']') with
    | ']' :: grev => if grev.isEmpty then none else some grev.reverse
    | _ => none
  | _ => none

/-- Python `str.split(',')`: split at every comma, empty fields kept. -/
def splitComma : List Char → List (List Char)
  | [] => [[]]
  | c :: rest =>
    let r := splitComma rest
    if c = ',' then [] :: r
    else
      match r with
      | h :: t => (c :: h) :: t
      | [] => [[c]]

/-- The description stored by `_parse_skill_file`: group 1 of the
`description:` search over the frontmatter, stripped; `""` when the
frontmatter or the key is missing. -/
def descriptionOf (content : String) : String :=
  match frontmatterGroup content with
  | some fm =>
    match reSearch "description:".data descRest fm with
    | some g => pyStrip (String.mk g)
    | none => ""
  | none => ""

/-- The explicit keyword list of `_parse_skill_file` (`keywords: [...]` in
the frontmatter): comma-split, each entry whitespace- then quote-stripped;
`[]` when the pattern does not match. -/
def explicitKeywords (content : String) : List String :=
  match frontmatterGroup content with
  | some fm =>
    match reSearch "keywords:".data kwRest fm with
    | some g => (splitComma g).map (fun k => stripQuotes (pyStrip (String.mk k)))
    | none => []
  | none => []

/-- The keywords stored by `_parse_skill_file`: the explicit list when the
`keywords:` pattern matched (`if not self.keywords:` — a successful match
always yields a non-empty list), otherwise derived from
`description + " " + content[:500]`. -/
def keywordsOf (content : String) : List String :=
  if (explicitKeywords content).isEmpty then
    extract_keywords (descriptionOf content ++ " " ++ pyTake content 500)
  else explicitKeywords content

/-- The `Skill` loaded from a catalog sub-directory named `name` whose
`SKILL.md` holds `content` (`Skill.__init__` + `_parse_skill_file`). -/
def loadSkill (name content : String) : Skill :=
  ⟨name, descriptionOf content, keywordsOf content, content⟩

/-- The parser model on sample documents (cross-checked against the CPython
regex semantics of `_parse_skill_file`). -/
theorem parse_examples :
    (descriptionOf "---\ndescription: stripe checkout\n---\nUse the stripe api.",
     keywordsOf "---\ndescription: stripe checkout\n---\nUse the stripe api.") =
      ("stripe checkout", ["api", "stripe"]) ∧
    (descriptionOf "---\ndescription: d\nkeywords: [React, JWT]\n---\nbody",
     keywordsOf "---\ndescription: d\nkeywords: [React, JWT]\n---\nbody") =
      ("d", ["React", "JWT"]) ∧
    (descriptionOf "---\ndescription: d\nkeywords: [,]\n---\n",
     keywordsOf "---\ndescription: d\nkeywords: [,]\n---\n") = ("d", ["", ""]) ∧
    (descriptionOf "no frontmatter react css",
     keywordsOf "no frontmatter react css") = ("", ["react", "css"]) ∧
    (descriptionOf "---\n\n\ndescription:   spaced out  \n---\n\nreact",
     keywordsOf "---\n\n\ndescription:   spaced out  \n---\n\nreact") =
      ("spaced out", ["react"]) ∧
    (descriptionOf "---\ndescription: d\n--- \nreact",
     keywordsOf "---\ndescription: d\n--- \nreact") = ("d", ["react"]) ∧
    (descriptionOf "----\nreact css", keywordsOf "----\nreact css") =
      ("", ["react", "css"]) ∧
    (descriptionOf "---\nkeywords: [only, kws]\n---\nreact",
     keywordsOf "---\nkeywords: [only, kws]\n---\nreact") = ("", ["only", "kws"]) ∧
    (descriptionOf "---\ndescription: react\n---\ntest stuff",
     keywordsOf "---\ndescription: react\n---\ntest stuff") =
      ("react", ["react", "test"]) := by
  decide

/-- A document whose explicit keyword list has 11 entries, none lowercase. -/
def c5Content : String :=
  "---\ndescription: d\nkeywords: [A,B,C,D,E,F,G,H,I,J,K]\n---\nx"

/-- **C5, counterexample.** The claim — every loaded skill's keywords are
lowercase and at most 10 — fails: an explicit `keywords:` list is stored
verbatim, neither lowercased nor capped.  This document loads with 11
keywords, all uppercase. -/
theorem loaded_keywords_lowercase_capped_counterexample :
    ¬ ((∀ kw ∈ (loadSkill "s" c5Content).keywords, pyLower kw = kw) ∧
       (loadSkill "s" c5Content).keywords.length ≤ 10) := by
  decide

theorem extract_keywords_mem_tech (text : String) :
    ∀ kw ∈ extract_keywords text, kw ∈ tech_keywords := by
  intro kw h
  exact List.mem_of_mem_filter (List.mem_of_mem_take h)

/-- **C5, amended.** For every skill whose keywords are derived by the
vocabulary scan (no explicit `keywords:` list matched), every keyword is a
lowercase string and there are at most 10 of them; an explicit list is
stored verbatim (uncapped, case preserved). -/
theorem derived_keywords_lowercase_capped (name content : String)
    (h : explicitKeywords content = []) :
    (∀ kw ∈ (loadSkill name content).keywords, pyLower kw = kw) ∧
      (loadSkill name content).keywords.length ≤ 10 := by
  have hk : (loadSkill name content).keywords =
      extract_keywords (descriptionOf content ++ " " ++ pyTake content 500) := by
    simp [loadSkill, keywordsOf, h]
  rw [hk]
  constructor
  · intro kw hkw
    have hmem := extract_keywords_mem_tech _ kw hkw
    have hall : ∀ kw ∈ tech_keywords, pyLower kw = kw := by decide
    exact hall kw hmem
  · exact List.length_take_le _ _

/-- Witness for the amended C5: a document with no explicit keyword list. -/
theorem derived_keywords_lowercase_capped_witness :
    explicitKeywords "---\ndescription: stripe checkout\n---\nUse the stripe api." = [] ∧
      ((∀ kw ∈ (loadSkill "pay"
          "---\ndescription: stripe checkout\n---\nUse the stripe api.").keywords,
        pyLower kw = kw) ∧
      (loadSkill "pay"
          "---\ndescription: stripe checkout\n---\nUse the stripe api.").keywords.length ≤
        10) :=
  ⟨by decide,
   derived_keywords_lowercase_capped "pay"
     "---\ndescription: stripe checkout\n---\nUse the stripe api." (by decide)⟩

/-- A document whose explicit keyword list is `[,]`, parsing to two empty
strings. -/
def c8Content : String := "---\ndescription: d\nkeywords: [,]\n---\n"

/-- **C8, counterexample.** The claim — on the empty query the score equals
the name-match and role-affinity contributions alone — fails: an
empty-string keyword is a substring of the empty query, so the keyword term
adds 0.15 per empty keyword.  The skill loaded from `c8Content` scores 0.3
on the empty query while name-match and affinity contribute 0. -/
theorem empty_query_score_counterexample :
    relevance_score (loadSkill "sk" c8Content) "" none ≠
      min (nameScore (loadSkill "sk" c8Content) (pyLower "") +
        affScore (loadSkill "sk" c8Content) none) 1 := by
  have hn : nameScore (loadSkill "sk" c8Content) (pyLower "") = 0 := by decide
  have hd : descScore (loadSkill "sk" c8Content) (pyLower "") = 0 := by decide
  have hk : kwScore (loadSkill "sk" c8Content) (pyLower "") = 3/10 := by
    have hfil : (loadSkill "sk" c8Content).keywords.filter
        (fun k => strContains (pyLower "") k) = ["", ""] := by decide
    unfold kwScore
    rw [hfil]
    norm_num
  have ha : affScore (loadSkill "sk" c8Content) none = 0 := rfl
  unfold relevance_score
  dsimp only
  rw [hn, hd, hk, ha,
    show ((0 : ℚ) + 0 + 3/10 + 0) = 3/10 by ring, show ((0 : ℚ) + 0) = 0 by ring,
    min_eq_left (by norm_num : (3/10 : ℚ) ≤ 1),
    min_eq_left (by norm_num : (0 : ℚ) ≤ 1)]
  norm_num

theorem descScore_empty_query (s : Skill) : descScore s (pyLower "") = 0 := by
  unfold descScore
  split
  · dsimp only
    rw [show pyWords (pyLower "") = [] from rfl]
    simp
  · rfl

theorem kwScore_empty_query (s : Skill) (h : ∀ k ∈ s.keywords, k ≠ "") :
    kwScore s (pyLower "") = 0 := by
  have hfil : s.keywords.filter (fun k => strContains (pyLower "") k) = [] := by
    rw [List.filter_eq_nil_iff]
    intro k hk hcon
    apply h k hk
    have hbridge : strContains (pyLower "") k = k.data.isEmpty := rfl
    rw [hbridge, List.isEmpty_iff] at hcon
    cases k with
    | mk d =>
      have hd2 : d = [] := hcon
      exact (congrArg String.mk hd2).trans rfl
  unfold kwScore
  rw [hfil]
  simp

/-- **C8, amended.** For every skill none of whose keywords is the empty
string, scoring the empty query yields exactly the clamp of name-match plus
role-affinity: the description-overlap and keyword-containment terms
contribute nothing. -/
theorem empty_query_score (s : Skill) (aid : Option String)
    (h : ∀ k ∈ s.keywords, k ≠ "") :
    descScore s (pyLower "") = 0 ∧ kwScore s (pyLower "") = 0 ∧
      relevance_score s "" aid =
        min (nameScore s (pyLower "") + affScore s aid) 1 := by
  refine ⟨descScore_empty_query s, kwScore_empty_query s h, ?_⟩
  unfold relevance_score
  dsimp only
  rw [descScore_empty_query s, kwScore_empty_query s h]
  congr 1
  ring

/-- Witness for the amended C8: a skill with one non-empty keyword. -/
theorem empty_query_score_witness :
    (∀ k ∈ (Skill.mk "n" "d" ["react"] "").keywords, k ≠ "") ∧
      relevance_score (Skill.mk "n" "d" ["react"] "") "" none =
        min (nameScore (Skill.mk "n" "d" ["react"] "") (pyLower "") +
          affScore (Skill.mk "n" "d" ["react"] "") none) 1 :=
  ⟨by decide, (empty_query_score (Skill.mk "n" "d" ["react"] "") none (by decide)).2.2⟩

theorem pyLower_data_join (d c : String) :
    (pyLower (d ++ " " ++ c)).data =
      (d.data.map Char.toLower) ++ ' ' :: (c.data.map Char.toLower) := by
  show ((d ++ " " ++ c).data.map Char.toLower) = _
  rw [String.data_append, String.data_append,
    show (" " : String).data = [' '] from rfl]
  simp

theorem pyLower_data_cat (d c : String) :
    (pyLower (d ++ c)).data =
      (d.data.map Char.toLower) ++ (c.data.map Char.toLower) := by
  show ((d ++ c).data.map Char.toLower) = _
  rw [String.data_append]
  simp

/-- Pointwise core of C9: for a well-behaved term, occurrence in
`lower(d + " " + c)` and in `lower(d + c)` agree whenever `d` is empty or
`c` starts with `"--"`. -/
theorem strContains_join_eq (d c k : String)
    (hv : d.data = [] ∨ ∃ r, c.data = '-' :: '-' :: r)
    (hok : OkTerm k.data) :
    strContains (pyLower (d ++ " " ++ c)) k = strContains (pyLower (d ++ c)) k := by
  unfold strContains
  rw [pyLower_data_join, pyLower_data_cat]
  rw [Bool.eq_iff_iff]
  rw [listContains_iff, listContains_iff]
  apply containsP_join_eq
  · rcases hv with hd | ⟨r, hr⟩
    · left; rw [hd]; rfl
    · right
      exact ⟨r.map Char.toLower, by rw [hr]; rfl⟩
  · exact hok

theorem frontmatterGroup_some_shape (content : String)
    (h : (frontmatterGroup content).isSome) :
    ∃ r, content.data = '-' :: '-' :: '-' :: r := by
  unfold frontmatterGroup at h
  split at h
  · next rest heq => exact ⟨rest, heq⟩
  · next => simp at h

theorem descriptionOf_ne_shape (content : String) (h : descriptionOf content ≠ "") :
    ∃ r, content.data = '-' :: '-' :: '-' :: r := by
  apply frontmatterGroup_some_shape
  unfold descriptionOf at h
  rcases hfg : frontmatterGroup content with _ | fm
  · rw [hfg] at h; exact absurd rfl h
  · rfl

/-- The keyword derivation exactly as the claim words it: every vocabulary
term occurring case-insensitively in the description concatenated with the
first 500 characters of the document, in vocabulary order, first 10. -/
def claimedDerivedKeywords (description content : String) : List String :=
  (tech_keywords.filter
    (fun k => strContains (pyLower (description ++ pyTake content 500)) k)).take 10

/-- **C9.** For every document without an explicit keyword list, the stored
keywords equal the claimed derivation.  The code scans
`description + " " + content[:500]` — with a joining space the claim does
not mention — but the difference is unobservable: a nonempty description
forces the document to start with `---`, and no vocabulary term can span
the boundary in either reading. -/
theorem derived_keywords_match_claim (content : String)
    (h : explicitKeywords content = []) :
    keywordsOf content = claimedDerivedKeywords (descriptionOf content) content := by
  unfold keywordsOf claimedDerivedKeywords
  rw [h]
  simp only [List.isEmpty_nil, if_true]
  unfold extract_keywords
  congr 1
  apply List.filter_congr
  intro k hk
  apply strContains_join_eq
  · by_cases hd : descriptionOf content = ""
    · left; rw [hd]
    · right
      obtain ⟨r, hr⟩ := descriptionOf_ne_shape content hd
      refine ⟨'-' :: r.take 497, ?_⟩
      show (content.data.take 500) = _
      rw [hr, show (500 : Nat) = 499 + 1 from rfl, List.take_succ_cons,
        show (499 : Nat) = 498 + 1 from rfl, List.take_succ_cons,
        show (498 : Nat) = 497 + 1 from rfl, List.take_succ_cons]
  · exact tech_keywords_ok k hk

/-- Witness for C9: a document with a description but no keyword list. -/
theorem derived_keywords_match_claim_witness :
    explicitKeywords "---\ndescription: stripe checkout\n---\nUse the stripe api." = [] ∧
      keywordsOf "---\ndescription: stripe checkout\n---\nUse the stripe api." =
        claimedDerivedKeywords
          (descriptionOf "---\ndescription: stripe checkout\n---\nUse the stripe api.")
          "---\ndescription: stripe checkout\n---\nUse the stripe api." :=
  ⟨by decide,
   derived_keywords_match_claim
     "---\ndescription: stripe checkout\n---\nUse the stripe api." (by decide)⟩

/-- Modelled from the spec: the immutable role records ("name + instruction
text") produced by the external agent-specification loader (the `agents`
module is outside the analyzed core; `orchestrator.py` reads exactly these
two attributes). -/
structure Agent where
  name : String
  instructions : String

/-- Modelled from the spec: the opaque task category produced by the
external intent classifier; `orchestrator.py` only reads its `.value`
label. -/
structure TaskType where
  value : String

/-- One entry of `results["agents_executed"]` in `execute_pipeline`. -/
structure AgentResult where
  agent_id : String
  agent_name : String
  skills_used : List String
  context_size : Nat
  status : String

/-- The `results` dictionary returned by `execute_pipeline`. -/
structure RunResults where
  task_type : String
  query : String
  agents_executed : List AgentResult
  success : Bool
  errors : List String

/-- Python `params.get(key, default)` on a string-valued dict, modelled as
an association list (dict keys are unique, iteration in insertion order). -/
def paramsGet (ps : List (String × String)) (key dflt : String) : String :=
  match ps.find? (fun p => p.1 == key) with
  | some p => p.2
  | none => dflt

/-- Python's rendering of a quoted string inside `str(dict)`. -/
def pyReprStr (s : String) : String := "'" ++ s ++ "'"

/-- Python's `str()` rendering of a string-valued dict, as interpolated by
`f"Parameters: {params}"`. -/
def paramsRepr (ps : List (String × String)) : String :=
  "\x7b" ++
    String.intercalate ", " (ps.map (fun p => pyReprStr p.1 ++ ": " ++ pyReprStr p.2)) ++
    "\x7d"

/-- `"\n" + "="*60 + "\n"` of `_build_agent_context`. -/
def eqBar : String := "\n" ++ String.mk (List.replicate 60 '=') ++ "\n"

/-- `"\n" + "-"*40 + "\n"` of `_build_agent_context`. -/
def dashBar : String := "\n" ++ String.mk (List.replicate 40 '-') ++ "\n"

/-- `Orchestrator._build_agent_context`: the layered context document,
`"\n".join(context_parts)`. -/
def build_agent_context (instructions : String) (agent : Agent) (query : String)
    (params : List (String × String)) (selected_skills : List Skill)
    (previous_results : List AgentResult) : String :=
  String.intercalate "\n"
    (["# SYSTEM ORCHESTRATION", instructions, eqBar,
      "# AGENT: " ++ agent.name, agent.instructions, eqBar] ++
     (if selected_skills.isEmpty then [] else
       "# SELECTED SKILLS" ::
         (selected_skills.map (fun sk =>
           ["\n## Skill: " ++ sk.name, sk.content, dashBar])).flatten) ++
     ["# CURRENT TASK", "Query: " ++ query, "Parameters: " ++ paramsRepr params,
      eqBar] ++
     (if previous_results.isEmpty then [] else
       ("# PREVIOUS AGENT RESULTS" ::
         (previous_results.map (fun r =>
           ("- " ++ r.agent_name ++ ": " ++ r.status) ::
             (if r.skills_used.isEmpty then []
              else ["  Skills: " ++ String.intercalate ", " r.skills_used]))).flatten) ++
       [eqBar]))

/-- The error string `f"Agent {agent_id} not found"`. -/
def agentNotFoundMsg (agent_id : String) : String :=
  "Agent " ++ agent_id ++ " not found"

/-- One iteration of the `for i, agent_id in enumerate(agent_ids, 1)` loop
of `execute_pipeline`; the accumulator carries
(`agents_executed`, `errors`, `success`).  An unresolved id appends an
error, sets success to False and `continue`s; a resolved one selects the
top-3 skills (score threshold 0.1), assembles context and appends a
`"simulated"` step record. -/
def pipelineStep (agents : List (String × Agent)) (skills : List Skill)
    (instructions : String) (query : String) (params : List (String × String))
    (acc : List AgentResult × List String × Bool) (agent_id : String) :
    List AgentResult × List String × Bool :=
  match List.lookup agent_id agents with
  | none => (acc.1, acc.2.1 ++ [agentNotFoundMsg agent_id], false)
  | some agent =>
    let selected := select_skills skills query (some agent_id) 3 (1/10)
    let context := build_agent_context instructions agent query params
      (selected.map (·.1)) acc.1
    let res : AgentResult :=
      ⟨agent_id, agent.name, selected.map (fun p => p.1.name),
        context.length, "simulated"⟩
    (acc.1 ++ [res], acc.2.1, acc.2.2)

/-- `Orchestrator.execute_pipeline`: run every role id in order over the
step function and package the results dictionary (the role lookup
`self.agents` is the external role table, modelled as an association
list). -/
def execute_pipeline (agents : List (String × Agent)) (skills : List Skill)
    (instructions : String) (task_type : TaskType) (agent_ids : List String)
    (params : List (String × String)) : RunResults :=
  let query := paramsGet params "description" ""
  let acc := agent_ids.foldl (pipelineStep agents skills instructions query params)
    ([], [], true)
  ⟨task_type.value, query, acc.1, acc.2.2, acc.2.1⟩

theorem pipeline_foldl_spec (agents : List (String × Agent)) (skills : List Skill)
    (instructions : String) (query : String) (params : List (String × String)) :
    ∀ (ids : List String) (acc : List AgentResult × List String × Bool),
      (ids.foldl (pipelineStep agents skills instructions query params) acc).2.1 =
        acc.2.1 ++ (ids.filter
          (fun i => (List.lookup i agents).isNone)).map agentNotFoundMsg ∧
      (ids.foldl (pipelineStep agents skills instructions query params) acc).1.length =
        acc.1.length + ids.countP (fun i => (List.lookup i agents).isSome) ∧
      (ids.foldl (pipelineStep agents skills instructions query params) acc).2.2 =
        (acc.2.2 && ids.all (fun i => (List.lookup i agents).isSome)) := by
  intro ids
  induction ids with
  | nil => intro acc; simp
  | cons i rest ih =>
    intro acc
    simp only [List.foldl_cons, List.filter_cons, List.countP_cons, List.all_cons]
    rcases hl : List.lookup i agents with _ | ag
    · have hstep : pipelineStep agents skills instructions query params acc i =
          (acc.1, acc.2.1 ++ [agentNotFoundMsg i], false) := by
        unfold pipelineStep; rw [hl]
      rw [hstep]
      obtain ⟨e1, e2, e3⟩ := ih (acc.1, acc.2.1 ++ [agentNotFoundMsg i], false)
      refine ⟨?_, ?_, ?_⟩
      · rw [e1]; simp [hl]
      · rw [e2]; simp [hl]
      · rw [e3]; simp [hl]
    · have hstep : pipelineStep agents skills instructions query params acc i =
          (acc.1 ++ [⟨i, ag.name,
            (select_skills skills query (some i) 3 (1/10)).map (fun p => p.1.name),
            (build_agent_context instructions ag query params
              ((select_skills skills query (some i) 3 (1/10)).map (·.1))
              acc.1).length, "simulated"⟩], acc.2.1, acc.2.2) := by
        unfold pipelineStep; rw [hl]
      rw [hstep]
      obtain ⟨e1, e2, e3⟩ := ih _
      refine ⟨?_, ?_, ?_⟩
      · rw [e1]; simp [hl]
      · rw [e2]; simp [hl]; omega
      · rw [e3]; simp [hl]

/-- **C4.** In `execute_pipeline`, each unresolvable role id contributes
exactly one error string naming it and is skipped, every resolvable role
contributes exactly one step record, and the overall success flag is true
iff every role resolved.  In particular a two-role run whose first role
resolves and whose second does not yields exactly one step record, exactly
one error naming the missing role, and success = false. -/
theorem execute_pipeline_spec (agents : List (String × Agent)) (skills : List Skill)
    (instr : String) (tt : TaskType) (params : List (String × String))
    (ids : List String) (id1 id2 : String) (ag : Agent)
    (h1 : List.lookup id1 agents = some ag) (h2 : List.lookup id2 agents = none) :
    (execute_pipeline agents skills instr tt ids params).errors =
      (ids.filter (fun i => (List.lookup i agents).isNone)).map agentNotFoundMsg ∧
    (execute_pipeline agents skills instr tt ids params).agents_executed.length =
      ids.countP (fun i => (List.lookup i agents).isSome) ∧
    ((execute_pipeline agents skills instr tt ids params).success = true ↔
      ∀ i ∈ ids, (List.lookup i agents).isSome = true) ∧
    (execute_pipeline agents skills instr tt [id1, id2] params).agents_executed.length
      = 1 ∧
    (execute_pipeline agents skills instr tt [id1, id2] params).errors =
      [agentNotFoundMsg id2] ∧
    (execute_pipeline agents skills instr tt [id1, id2] params).success = false := by
  have key := pipeline_foldl_spec agents skills instr
    (paramsGet params "description" "") params
  obtain ⟨e1, e2, e3⟩ := key ids ([], [], true)
  obtain ⟨f1, f2, f3⟩ := key [id1, id2] ([], [], true)
  refine ⟨?_, ?_, ?_, ?_, ?_, ?_⟩
  · exact e1.trans (by simp)
  · exact e2.trans (by simp)
  · show (List.foldl _ ([], [], true) ids).2.2 = true ↔ _
    rw [e3]
    simp [List.all_eq_true]
  · show (List.foldl _ ([], [], true) [id1, id2]).1.length = 1
    rw [f2]
    simp [h1, h2, List.countP_cons]
  · show (List.foldl _ ([], [], true) [id1, id2]).2.1 = _
    rw [f1]
    simp [h1, h2, List.filter_cons]
  · show (List.foldl _ ([], [], true) [id1, id2]).2.2 = false
    rw [f3]
    simp [h2]

/-- Witness for C4: a one-entry role table, run over `["01", "02"]`. -/
theorem execute_pipeline_spec_witness :
    List.lookup "01" [("01", Agent.mk "Planner" "plan")] =
        some (Agent.mk "Planner" "plan") ∧
      List.lookup "02" [("01", Agent.mk "Planner" "plan")] = none ∧
      (execute_pipeline [("01", Agent.mk "Planner" "plan")] [] "sys" ⟨"feature"⟩
          ["01", "02"] [("description", "build x")]).agents_executed.length = 1 ∧
      (execute_pipeline [("01", Agent.mk "Planner" "plan")] [] "sys" ⟨"feature"⟩
          ["01", "02"] [("description", "build x")]).errors =
        [agentNotFoundMsg "02"] ∧
      (execute_pipeline [("01", Agent.mk "Planner" "plan")] [] "sys" ⟨"feature"⟩
          ["01", "02"] [("description", "build x")]).success = false := by
  have h := execute_pipeline_spec [("01", Agent.mk "Planner" "plan")] [] "sys"
    ⟨"feature"⟩ [("description", "build x")] ["01", "02"] "01" "02"
    (Agent.mk "Planner" "plan") (by rfl) (by rfl)
  exact ⟨by rfl, by rfl, h.2.2.2.1, h.2.2.2.2.1, h.2.2.2.2.2⟩

/-- The persisted run state of the coordinator
(`load_state` / `save_state` in `core/orchestrator.py`). -/
structure OrchState where
  current_phase : String
  active_task : Option String
  active_agents : List String
  history : List String
  timestamp : String

/-- The default state dict of `load_state` (its `timestamp` field is
`datetime.now().isoformat()`, an environment input). -/
def default_state (now : String) : OrchState :=
  ⟨"IDLE", none, [], [], now⟩

/-- `Orchestrator.load_state`: return the parsed state when the file exists
and `json.load` succeeds; on a missing file, or on any exception from the
parse (`except: pass`), fall through to the defaults.  The stdlib JSON
parser is an external collaborator, modelled as an opaque function whose
failure (exception) is `none`. -/
def load_state (fileContent : Option String)
    (parseJson : String → Option OrchState) (now : String) : OrchState :=
  match fileContent with
  | some s =>
    match parseJson s with
    | some st => st
    | none => default_state now
  | none => default_state now

/-- **C6.** When the state file is absent or its content fails to parse,
`load_state` returns the default state — phase `"IDLE"`, no active task,
no active agents, empty history — and (being a total function of its
inputs) raises nothing: the `except` clause swallows every parse error. -/
theorem load_state_default (fileContent : Option String)
    (parseJson : String → Option OrchState) (now : String)
    (h : fileContent = none ∨ ∃ s, fileContent = some s ∧ parseJson s = none) :
    load_state fileContent parseJson now = default_state now ∧
    (load_state fileContent parseJson now).current_phase = "IDLE" ∧
    (load_state fileContent parseJson now).active_task = none ∧
    (load_state fileContent parseJson now).active_agents = [] ∧
    (load_state fileContent parseJson now).history = [] := by
  have he : load_state fileContent parseJson now = default_state now := by
    rcases h with rfl | ⟨s, rfl, hp⟩
    · rfl
    · show (match parseJson s with
        | some st => st
        | none => default_state now) = default_state now
      rw [hp]
  exact ⟨he, by rw [he]; rfl, by rw [he]; rfl, by rw [he]; rfl, by rw [he]; rfl⟩

/-- Witness for C6: a file holding text on which the parser fails. -/
theorem load_state_default_witness :
    ((some "\x7bnot json" : Option String) = none ∨
      ∃ s, (some "\x7bnot json" : Option String) = some s ∧
        (fun _ : String => (none : Option OrchState)) s = none) ∧
      load_state (some "\x7bnot json") (fun _ => none) "t0" = default_state "t0" :=
  ⟨Or.inr ⟨"\x7bnot json", rfl, rfl⟩,
   (load_state_default (some "\x7bnot json") (fun _ => none) "t0"
     (Or.inr ⟨"\x7bnot json", rfl, rfl⟩)).1⟩

/-- The two result shapes of `process_user_request`: the cancellation dict
`{"success": False, "message": ...}`, or the results dict of
`execute_pipeline`. -/
inductive ProcessResult where
  | cancelled (message : String)
  | ran (result : RunResults)

/-- `Orchestrator.process_user_request`: parse intent, build the pipeline,
and gate on approval: when the task type requires approval and the
stripped, lowercased response is not `"y"`, return the cancellation dict
without executing; otherwise execute the pipeline.  The intent parser
(`parse`, `get_agent_pipeline`, `should_ask_for_approval` from the external
`intent_parser` module) and the interactive prompt's response are passed as
opaque inputs. -/
def process_user_request (agents : List (String × Agent)) (skills : List Skill)
    (instr : String)
    (parse : String → TaskType × List (String × String))
    (get_agent_pipeline : TaskType → Bool → List String)
    (should_ask_for_approval : TaskType → Bool)
    (is_existing_project : Bool) (approval_response : String)
    (user_input : String) : ProcessResult :=
  let tp := parse user_input
  let pipeline := get_agent_pipeline tp.1 is_existing_project
  if should_ask_for_approval tp.1 then
    if pyLower (pyStrip approval_response) ≠ "y" then
      ProcessResult.cancelled "Task cancelled by user"
    else
      ProcessResult.ran (execute_pipeline agents skills instr tp.1 pipeline tp.2)
  else
    ProcessResult.ran (execute_pipeline agents skills instr tp.1 pipeline tp.2)

/-- **C7.** When the task category requires approval and the response is
non-affirmative (stripped, lowercased ≠ "y"), `process_user_request`
returns the cancellation result — a shape distinct from every pipeline
(failure or success) result — and `execute_pipeline` is never invoked: the
returned value is not `ran r` for any run result `r`. -/
theorem cancellation_short_circuits (agents : List (String × Agent))
    (skills : List Skill) (instr : String)
    (parse : String → TaskType × List (String × String))
    (get_agent_pipeline : TaskType → Bool → List String)
    (should_ask_for_approval : TaskType → Bool)
    (is_existing_project : Bool) (approval_response : String) (user_input : String)
    (hask : should_ask_for_approval (parse user_input).1 = true)
    (hresp : pyLower (pyStrip approval_response) ≠ "y") :
    process_user_request agents skills instr parse get_agent_pipeline
        should_ask_for_approval is_existing_project approval_response user_input =
      ProcessResult.cancelled "Task cancelled by user" ∧
    ∀ r : RunResults,
      process_user_request agents skills instr parse get_agent_pipeline
          should_ask_for_approval is_existing_project approval_response user_input ≠
        ProcessResult.ran r := by
  have he : process_user_request agents skills instr parse get_agent_pipeline
      should_ask_for_approval is_existing_project approval_response user_input =
      ProcessResult.cancelled "Task cancelled by user" := by
    unfold process_user_request
    dsimp only
    rw [hask]
    simp [hresp]
  exact ⟨he, fun r hcon => by rw [he] at hcon; exact ProcessResult.noConfusion hcon⟩

/-- Witness for C7: an approval-gated task type and the response `" NO "`. -/
theorem cancellation_short_circuits_witness :
    (fun _ : TaskType => true) ((fun _ : String => (TaskType.mk "feature",
        ([] : List (String × String)))) "make it" |>.1) = true ∧
      pyLower (pyStrip " NO ") ≠ "y" ∧
      process_user_request [] [] "sys"
          (fun _ => (TaskType.mk "feature", [])) (fun _ _ => ["01"])
          (fun _ => true) false " NO " "make it" =
        ProcessResult.cancelled "Task cancelled by user" :=
  ⟨rfl, by decide,
   (cancellation_short_circuits [] [] "sys" (fun _ => (TaskType.mk "feature", []))
     (fun _ _ => ["01"]) (fun _ => true) false " NO " "make it" rfl (by decide)).1⟩
